import Mathlib

/-!
Shallow embedding of the `ae` event library (event-lib): the event
kind/category model (`Event.h`), the listener registry
(`EventManager.cpp`), the listener handle (`EventListener.cpp`) and the
layer pipeline (`LayerStack.cpp`).  Machine integers are modelled as
`Nat` with explicit `% 2^w` where the C++ performs a narrowing
conversion or may overflow; pointers are modelled as `Nat` with `0`
standing for `nullptr`.
-/

namespace EventLib

/-! ## Kind/category model (Event.h) -/

/-- The `EventCategory` enum (`Event.h`): independent flag bits stored in a
`uint8_t`. -/
inductive EventCategory where
  | NONE | INPUT | KEYBOARD | MOUSE | CONTROLLER | WINDOW | APPLICATION | CUSTOM
deriving DecidableEq

/-- Numeric value of each `EventCategory` enumerator. -/
def EventCategory.val : EventCategory → Nat
  | .NONE => 0
  | .INPUT => 1
  | .KEYBOARD => 2
  | .MOUSE => 4
  | .CONTROLLER => 8
  | .WINDOW => 16
  | .APPLICATION => 32
  | .CUSTOM => 64

/-- `EventCategoryWrapper` (`Event.h`): a `uint8_t` bitmask. -/
structure EventCategoryWrapper where
  value : Nat
deriving DecidableEq

/-- Well-formed wrapper: the stored value fits in the `uint8_t` field. -/
def EventCategoryWrapper.Wf (w : EventCategoryWrapper) : Prop := w.value < 256

instance (w : EventCategoryWrapper) : Decidable w.Wf := by
  unfold EventCategoryWrapper.Wf; infer_instance

/-- Converting constructor `EventCategoryWrapper(EventCategory)`. -/
def EventCategoryWrapper.ofCategory (c : EventCategory) : EventCategoryWrapper :=
  ⟨c.val⟩

/-- `operator|`: `static_cast<uint8_t>(m_Value | other.m_Value)`. -/
def EventCategoryWrapper.or (a b : EventCategoryWrapper) : EventCategoryWrapper :=
  ⟨(a.value ||| b.value) % 256⟩

/-- `operator&`: `static_cast<uint8_t>(m_Value & other.m_Value)`. -/
def EventCategoryWrapper.and (a b : EventCategoryWrapper) : EventCategoryWrapper :=
  ⟨(a.value &&& b.value) % 256⟩

/-- `operator~`: `static_cast<uint8_t>(~m_Value)`; on a `uint8_t` value
`v < 256` the integral promotion and truncating cast yield `255 - v`. -/
def EventCategoryWrapper.compl (a : EventCategoryWrapper) : EventCategoryWrapper :=
  ⟨255 - a.value % 256⟩

/-! ## Event envelope (Event.h) -/

/-- The `Event` envelope: `m_TypeId : uint16_t`, `m_Categories`,
`m_Consumed : bool`. -/
structure Event where
  typeId : Nat
  categories : EventCategoryWrapper
  consumed : Bool
deriving DecidableEq

/-- The `Event` constructor.  Derived event classes pass a `uint32_t`
type id into the `uint16_t` parameter, so the stored id is the argument
reduced modulo `2^16`; `m_Consumed` starts `false`. -/
def mkEvent (typeId : Nat) (categories : EventCategoryWrapper) : Event :=
  ⟨typeId % 65536, categories, false⟩

/-- `Event::GetTypeId`. -/
def Event.getTypeId (e : Event) : Nat := e.typeId

/-- `Event::Consume`. -/
def Event.consume (e : Event) : Event := { e with consumed := true }

/-- `Event::IsConsumed`. -/
def Event.isConsumed (e : Event) : Bool := e.consumed

/-- `Event::IsInCategory`: `(m_Categories & category) != EventCategory::NONE`. -/
def Event.isInCategory (e : Event) (c : EventCategory) : Bool :=
  e.categories.and (.ofCategory c) ≠ EventCategoryWrapper.ofCategory .NONE

/-! ## Custom kind-id allocation (Event.h: detail::GetNextCustomEventId,
EventTypeId<T>::Get) -/

/-- The fixed ids of the built-in `EventType` enumerators (excluding the
`CUSTOM_START` threshold marker). -/
def builtinEventIds : List Nat :=
  [100, 101, 102,
   200, 201, 202, 203, 204, 205,
   300, 301, 302, 303, 304, 305, 306, 307, 308, 309,
   400, 401,
   500, 501]

/-- `EventType::CUSTOM_START`. -/
def customStart : Nat := 1000

/-- Allocation state: `s_NextId` (a `uint32_t`, so incremented modulo
`2^32`) together with the per-type memoized static `s_Id` values,
keyed by custom kind (most recent first). -/
structure IdAllocState where
  nextId : Nat
  memo : List (Nat × Nat)
deriving DecidableEq

/-- The state at process start: `s_NextId` is initialized to
`EventType::CUSTOM_START` and no custom type has been assigned an id. -/
def initialIdAllocState : IdAllocState := ⟨customStart, []⟩

/-- `EventTypeId<T>::Get` for a custom kind `k`: on first call the local
static `s_Id` is initialized from `detail::GetNextCustomEventId()`
(which returns `s_NextId++` on a `uint32_t`); later calls return the
memoized value. -/
def obtainKindId (st : IdAllocState) (k : Nat) : Nat × IdAllocState :=
  match st.memo.lookup k with
  | some i => (i, st)
  | none => (st.nextId, ⟨(st.nextId + 1) % 4294967296, (k, st.nextId) :: st.memo⟩)

/-- Run a sequence of `EventTypeId<_>::Get` requests, threading the
allocation state. -/
def runAlloc (st : IdAllocState) : List Nat → IdAllocState
  | [] => st
  | k :: ks => runAlloc (obtainKindId st k).2 ks

/-! ## Listener registry (EventManager.cpp)

Listener handles (`EventListener*`) are modelled as `Nat`, with `0` for
`nullptr`.  The `std::unordered_set<EventListener*>` is modelled as a
duplicate-free `List Nat` in iteration order (the order is
implementation-defined, so every theorem quantifies over it).  The
`AE_DEBUG` build flag is an explicit `Bool` parameter.  Each operation
also reports whether it emitted an `AE_WARNING` diagnostic. -/

/-- `std::unordered_set::insert`: no-op when the element is present. -/
def insertSet (reg : List Nat) (p : Nat) : List Nat :=
  if p ∈ reg then reg else reg ++ [p]

/-- `EventManager::AddListener`.  The null check and the
already-registered check are both inside `#ifdef AE_DEBUG`. -/
def addListener (debug : Bool) (reg : List Nat) (p : Nat) : List Nat × Bool :=
  if debug ∧ p = 0 then (reg, true)
  else if debug ∧ p ∈ reg then (reg, true)
  else (insertSet reg p, false)

/-- `EventManager::RemoveListener`.  The null check is inside
`#ifdef AE_DEBUG`; a handle not found by `m_pListeners.find` is a
warning no-op, otherwise the found entry is erased. -/
def removeListener (debug : Bool) (reg : List Nat) (p : Nat) : List Nat × Bool :=
  if debug ∧ p = 0 then (reg, true)
  else if p ∈ reg then (reg.erase p, false)
  else (reg, true)

/-- `EventManager::DispatchEvent`: iterate the registered handles (in
`cbs` each handle's `m_Callback` is `none` for an empty
`std::function`, `some c` for a callback whose only possible effect on
the envelope is calling `Consume()`, recorded by `c`).  Handles with an
empty callback are skipped; otherwise `event.m_Consumed = false` is
assigned and the callback invoked.  Returns the trace of
`(handle, event.consumed as seen at callback entry)` pairs and the
final envelope. -/
def dispatchEvent (cbs : Nat → Option Bool) : List Nat → Event → List (Nat × Bool) × Event
  | [], e => ([], e)
  | p :: rest, e =>
    match cbs p with
    | none => dispatchEvent cbs rest e
    | some c =>
      let e1 : Event := { e with consumed := false }
      let r := dispatchEvent cbs rest { e1 with consumed := (e1.consumed || c) }
      ((p, e1.consumed) :: r.1, r.2)

/-! ## Listener handles (EventListener.cpp)

A `ListenerSystem` is the registry contents together with each handle's
`m_Callback` (modelled as `Option Nat`: `none` is a null
`std::function`, `some f` identifies a non-empty callback). -/

structure ListenerSystem where
  registered : List Nat
  callback : Nat → Option Nat

/-- `EventListener::EventListener(EventListener&&)`: the new object
`tgt` takes `src`'s callback, `RemoveListener(&other)`,
`AddListener(this)`, then `other.m_Callback = nullptr`. -/
def moveConstructListener (debug : Bool) (st : ListenerSystem) (tgt src : Nat) :
    ListenerSystem :=
  let cb1 : Nat → Option Nat := fun x => if x = tgt then st.callback src else st.callback x
  let reg1 := (removeListener debug st.registered src).1
  let reg2 := (addListener debug reg1 tgt).1
  ⟨reg2, fun x => if x = src then none else cb1 x⟩

/-- `EventListener::operator=(EventListener&&)`: guarded by
`this != &other`; `RemoveListener(&other)`, move the callback into
`tgt`, then `other.m_Callback = nullptr`.  Registration of `tgt` is not
touched. -/
def moveAssignListener (debug : Bool) (st : ListenerSystem) (tgt src : Nat) :
    ListenerSystem :=
  if tgt = src then st
  else
    let reg1 := (removeListener debug st.registered src).1
    let cb1 : Nat → Option Nat := fun x => if x = tgt then st.callback src else st.callback x
    ⟨reg1, fun x => if x = src then none else cb1 x⟩

/-- `EventListener::~EventListener`: `RemoveListener(this)`,
unconditionally. -/
def destroyListener (debug : Bool) (st : ListenerSystem) (p : Nat) : ListenerSystem :=
  ⟨(removeListener debug st.registered p).1, st.callback⟩

/-! ## Layer pipeline (Layer.h, LayerStack.cpp)

`Layer*` pointers are `Nat` (`0` = `nullptr`).  The layer objects'
observable behaviour for the pipeline claims is the `m_Enabled` flag and
whether their `OnEvent` override calls `Consume()` on the envelope; an
environment `Nat → LayerObj` assigns both to each pointer. -/

structure LayerObj where
  enabled : Bool
  consumes : Bool

/-- The guard `pLayer != nullptr && pLayer->IsEnabled()` used by every
traversal of the stored sequence. -/
def activeB (env : Nat → LayerObj) (p : Nat) : Bool :=
  p != 0 && (env p).enabled

/-- `LayerStack` state: `m_Layers` and the layer/overlay boundary
`m_LayerInsertIndex` (a `uint32_t`; it never exceeds the sequence
length in reachable states, so `Nat` is faithful). -/
structure LayerStack where
  layers : List Nat
  layerInsertIndex : Nat
deriving DecidableEq

/-- Lifecycle calls and diagnostics emitted by a stack operation, in
order. -/
inductive LCall where
  | attach (p : Nat)
  | detach (p : Nat)
  | warn
deriving DecidableEq

/-- `LayerStack::PushLayer`: null is a warning no-op; under `AE_DEBUG` a
pointer already anywhere in `m_Layers` is a warning no-op; otherwise
insert at `m_Layers.begin() + m_LayerInsertIndex`, increment the
boundary, and call `OnAttach`. -/
def pushLayer (debug : Bool) (s : LayerStack) (p : Nat) : LayerStack × List LCall :=
  if p = 0 then (s, [.warn])
  else if debug ∧ p ∈ s.layers then (s, [.warn])
  else (⟨s.layers.insertIdx s.layerInsertIndex p, s.layerInsertIndex + 1⟩, [.attach p])

/-- `LayerStack::PopLayer`: null is a warning no-op; `std::find` over
`[begin, begin + m_LayerInsertIndex)`; if found call `OnDetach`, erase
the found position and decrement the boundary, else warn. -/
def popLayer (s : LayerStack) (p : Nat) : LayerStack × List LCall :=
  if p = 0 then (s, [.warn])
  else
    match (s.layers.take s.layerInsertIndex).findIdx? (fun q => q == p) with
    | some i => (⟨s.layers.eraseIdx i, s.layerInsertIndex - 1⟩, [.detach p])
    | none => (s, [.warn])

/-- `LayerStack::PushOverlay`: null / debug-duplicate checks as for
`PushLayer`; otherwise `push_back` at the end (boundary unchanged) and
call `OnAttach`. -/
def pushOverlay (debug : Bool) (s : LayerStack) (p : Nat) : LayerStack × List LCall :=
  if p = 0 then (s, [.warn])
  else if debug ∧ p ∈ s.layers then (s, [.warn])
  else (⟨s.layers ++ [p], s.layerInsertIndex⟩, [.attach p])

/-- `LayerStack::PopOverlay`: null is a warning no-op; `std::find` over
`[begin + m_LayerInsertIndex, end)`; if found call `OnDetach` and erase
(boundary unchanged), else warn. -/
def popOverlay (s : LayerStack) (p : Nat) : LayerStack × List LCall :=
  if p = 0 then (s, [.warn])
  else
    match (s.layers.drop s.layerInsertIndex).findIdx? (fun q => q == p) with
    | some i => (⟨s.layers.eraseIdx (s.layerInsertIndex + i), s.layerInsertIndex⟩, [.detach p])
    | none => (s, [.warn])

/-- The loop body of `LayerStack::OnEvent` over an already-reversed
sequence: break when `event.IsConsumed()`, skip null/disabled entries,
otherwise invoke the entry's `OnEvent` (whose only possible effect on
the envelope is `Consume()`).  Returns the visited entries in visit
order and the final consumed flag. -/
def onEventLoop (env : Nat → LayerObj) : List Nat → Bool → List Nat × Bool
  | [], c => ([], c)
  | p :: rest, c =>
    if c then ([], c)
    else if activeB env p then
      let r := onEventLoop env rest (c || (env p).consumes)
      (p :: r.1, r.2)
    else
      onEventLoop env rest c

/-- `LayerStack::OnEvent`: iterate `std::ranges::reverse_view(m_Layers)`
with the loop above. -/
def stackOnEvent (env : Nat → LayerObj) (s : LayerStack) (e : Event) :
    List Nat × Event :=
  let r := onEventLoop env s.layers.reverse e.consumed
  (r.1, { e with consumed := r.2 })

/-- The common forward loop of `LayerStack::OnUpdate` / `OnRender` /
`OnImGuiRender`: visit every entry of `m_Layers` in stored order,
invoking the hook on each non-null enabled entry. -/
def visitForward (env : Nat → LayerObj) : List Nat → List Nat
  | [] => []
  | p :: rest =>
    if activeB env p then p :: visitForward env rest else visitForward env rest

/-- `LayerStack::OnUpdate`: entries whose `OnUpdate` hook is invoked, in
order.  The pass carries no consumable signal: no `Event` is involved. -/
def onUpdateVisits (env : Nat → LayerObj) (s : LayerStack) : List Nat :=
  visitForward env s.layers

/-- `LayerStack::OnRender`: entries whose `OnRender` hook is invoked. -/
def onRenderVisits (env : Nat → LayerObj) (s : LayerStack) : List Nat :=
  visitForward env s.layers

/-- `LayerStack::OnImGuiRender` (the debug-render pass): entries whose
hook is invoked. -/
def onImGuiRenderVisits (env : Nat → LayerObj) (s : LayerStack) : List Nat :=
  visitForward env s.layers

/-- Stack states reachable from the freshly constructed stack
(`m_Layers` empty, `m_LayerInsertIndex = 0`) by any sequence of push/pop
operations in either build mode. -/
inductive ReachableStack : LayerStack → Prop where
  | init : ReachableStack ⟨[], 0⟩
  | pushL {s} (d p) : ReachableStack s → ReachableStack (pushLayer d s p).1
  | popL {s} (p) : ReachableStack s → ReachableStack (popLayer s p).1
  | pushO {s} (d p) : ReachableStack s → ReachableStack (pushOverlay d s p).1
  | popO {s} (p) : ReachableStack s → ReachableStack (popOverlay s p).1

/-! ## Characterizations and invariants -/

/-- Spec-side description of one consumption-aware pass over an
(active-filtered) sequence: visit entries in order and stop right after
the first one that consumes the event. -/
def takeThroughConsume (env : Nat → LayerObj) : List Nat → List Nat
  | [] => []
  | p :: rest =>
    if (env p).consumes then [p] else p :: takeThroughConsume env rest

theorem onEventLoop_visits (env : Nat → LayerObj) (l : List Nat) (c : Bool) :
    (onEventLoop env l c).1 =
      if c then [] else takeThroughConsume env (l.filter (activeB env)) := by
  induction l generalizing c with
  | nil => cases c <;> simp [onEventLoop, takeThroughConsume]
  | cons p rest ih =>
    cases c with
    | true => simp [onEventLoop]
    | false =>
      by_cases hp : activeB env p
      · by_cases hc : (env p).consumes
        · simp [onEventLoop, hp, hc, takeThroughConsume, ih]
        · simp [onEventLoop, hp, hc, takeThroughConsume, ih, List.filter_cons]
      · simp [onEventLoop, hp, ih, List.filter_cons]

theorem takeThroughConsume_sublist (env : Nat → LayerObj) (l : List Nat) :
    (takeThroughConsume env l).Sublist l := by
  induction l with
  | nil => simp [takeThroughConsume]
  | cons p rest ih =>
    by_cases hc : (env p).consumes
    · simp [takeThroughConsume, hc]
    · simpa [takeThroughConsume, hc] using ih.cons₂ p

theorem visitForward_eq_filter (env : Nat → LayerObj) (l : List Nat) :
    visitForward env l = l.filter (activeB env) := by
  induction l with
  | nil => rfl
  | cons p rest ih =>
    by_cases hp : activeB env p <;> simp [visitForward, hp, ih, List.filter_cons]

/-- Example layer pointers: layers `L1 = 1`, `L2 = 2`, overlay `O = 3`. -/
def exEnv : Nat → LayerObj := fun p => ⟨true, p == 3⟩

/-- The stack of the spec's example, built by the actual operations:
`PushLayer(L1); PushLayer(L2); PushOverlay(O)`. -/
def exStack : LayerStack :=
  (pushOverlay false (pushLayer false (pushLayer false ⟨[], 0⟩ 1).1 2).1 3).1

/-- A sample unconsumed event. -/
def exEvent : Event := mkEvent 100 (.ofCategory .KEYBOARD)

/-- C1: `LayerStack::OnEvent` visits the stored sequence in reverse
order, invokes `OnEvent` only on enabled (non-null) entries, and stops
before any further entry as soon as the consumed flag is true: the
visited entries are exactly the active entries of the reversed
sequence up to and including the first consumer (none at all when the
event arrives already consumed).  In the spec's example `[L1, L2, O]`
where `O` consumes, only `O` is visited. -/
theorem C1_onEvent_reverse_order_short_circuit :
    (∀ env s e, (stackOnEvent env s e).1 =
      if e.consumed then []
      else takeThroughConsume env (s.layers.reverse.filter (activeB env))) ∧
    (∀ env s e, (stackOnEvent env s e).1.Sublist s.layers.reverse) ∧
    (∀ env s e p, p ∈ (stackOnEvent env s e).1 → activeB env p = true) ∧
    (exStack.layers = [1, 2, 3] ∧ exStack.layerInsertIndex = 2 ∧
      (stackOnEvent exEnv exStack exEvent).1 = [3] ∧
      (stackOnEvent exEnv exStack exEvent).2.consumed = true ∧
      1 ∉ (stackOnEvent exEnv exStack exEvent).1 ∧
      2 ∉ (stackOnEvent exEnv exStack exEvent).1) := by
  have hchar : ∀ env s e, (stackOnEvent env s e).1 =
      if e.consumed then []
      else takeThroughConsume env (s.layers.reverse.filter (activeB env)) := by
    intro env s e
    simp [stackOnEvent, onEventLoop_visits]
  refine ⟨hchar, ?_, ?_, by decide⟩
  · intro env s e
    rw [hchar]
    by_cases hc : e.consumed
    · simp [hc]
    · simp only [hc, if_neg Bool.false_ne_true]
      exact ((takeThroughConsume_sublist env _).trans (List.filter_sublist _))
  · intro env s e p hp
    rw [hchar] at hp
    by_cases hc : e.consumed
    · simp [hc] at hp
    · simp only [hc, if_neg Bool.false_ne_true] at hp
      have := ((takeThroughConsume_sublist env _).subset hp)
      exact (List.mem_filter.mp this).2

/-- Witness for C1 at the spec's concrete example. -/
theorem C1_witness : activeB exEnv 3 = true :=
  C1_onEvent_reverse_order_short_circuit.2.2.1 exEnv exStack exEvent 3 (by decide)

/-- C8: `OnUpdate`, `OnRender` and the debug-render pass visit `m_Layers`
in forward (stored) order and invoke the hook on exactly the non-null
enabled entries — every enabled entry is visited, with no
short-circuit (the passes take no event and consult no consumed
flag). -/
theorem C8_forward_passes_unconditional :
    (∀ env s, onUpdateVisits env s = s.layers.filter (activeB env)) ∧
    (∀ env s, onRenderVisits env s = s.layers.filter (activeB env)) ∧
    (∀ env s, onImGuiRenderVisits env s = s.layers.filter (activeB env)) ∧
    (∀ env s p, p ∈ s.layers → activeB env p = true →
      p ∈ onUpdateVisits env s ∧ p ∈ onRenderVisits env s ∧
      p ∈ onImGuiRenderVisits env s) := by
  refine ⟨?_, ?_, ?_, ?_⟩ <;>
    intro env s <;>
    simp only [onUpdateVisits, onRenderVisits, onImGuiRenderVisits,
      visitForward_eq_filter]
  intro p hmem hact
  exact ⟨List.mem_filter.mpr ⟨hmem, hact⟩, List.mem_filter.mpr ⟨hmem, hact⟩,
    List.mem_filter.mpr ⟨hmem, hact⟩⟩

/-- Witness for C8: in the example stack every entry is enabled, so all
three forward passes visit layer 1. -/
theorem C8_witness :
    1 ∈ onUpdateVisits exEnv exStack ∧ 1 ∈ onRenderVisits exEnv exStack ∧
      1 ∈ onImGuiRenderVisits exEnv exStack :=
  C8_forward_passes_unconditional.2.2.2 exEnv exStack 1 (by decide) (by decide)

theorem dispatchEvent_trace (cbs : Nat → Option Bool) (l : List Nat) (e : Event) :
    (dispatchEvent cbs l e).1 =
      (l.filter (fun p => (cbs p).isSome)).map (fun p => (p, false)) := by
  induction l generalizing e with
  | nil => rfl
  | cons p rest ih =>
    cases hcb : cbs p with
    | none => simp [dispatchEvent, hcb, ih, List.filter_cons]
    | some c => simp [dispatchEvent, hcb, ih, List.filter_cons]

/-- C2: broadcasting iterates the registered handles, skips handles with
an empty callback without error, resets the consumed flag to `false`
immediately before each invocation (so every invoked listener observes
`IsConsumed() == false` on entry, whatever earlier listeners did), and
— the registry being duplicate-free — invokes each registered
non-empty callback exactly once. -/
theorem C2_dispatch_resets_consumed_each_listener :
    (∀ cbs (l : List Nat) e, (dispatchEvent cbs l e).1 =
      (l.filter (fun p => (cbs p).isSome)).map (fun p => (p, false))) ∧
    (∀ cbs (l : List Nat) e p b, (p, b) ∈ (dispatchEvent cbs l e).1 → b = false) ∧
    (∀ cbs (l : List Nat) e p, l.Nodup → p ∈ l → (cbs p).isSome →
      ((dispatchEvent cbs l e).1.map Prod.fst).count p = 1) ∧
    (∀ cbs (l : List Nat) e p, cbs p = none →
      p ∉ (dispatchEvent cbs l e).1.map Prod.fst) := by
  refine ⟨dispatchEvent_trace, ?_, ?_, ?_⟩
  · intro cbs l e p b hmem
    rw [dispatchEvent_trace] at hmem
    obtain ⟨q, -, hq⟩ := List.mem_map.mp hmem
    exact (Prod.mk.injEq _ _ _ _ ▸ hq).2.symm
  · intro cbs l e p hnd hmem hsome
    rw [dispatchEvent_trace]
    have hmap : ((l.filter (fun p => (cbs p).isSome)).map
        (fun p => (p, false))).map Prod.fst = l.filter (fun p => (cbs p).isSome) := by
      have hcomp : (Prod.fst ∘ fun p : Nat => (p, false)) = id := rfl
      simp [hcomp]
    rw [hmap]
    exact List.count_eq_one_of_mem (hnd.filter _)
      (List.mem_filter.mpr ⟨hmem, hsome⟩)
  · intro cbs l e p hnone hmem
    rw [dispatchEvent_trace] at hmem
    simp only [List.map_map, List.mem_map, List.mem_filter] at hmem
    obtain ⟨q, ⟨-, hq⟩, hqp⟩ := hmem
    simp only [Function.comp_apply] at hqp
    subst hqp
    rw [hnone] at hq
    exact absurd hq (by simp)

/-- Witness for C2 on a concrete three-listener registry in which the
first listener consumes and the second has an empty callback. -/
theorem C2_witness :
    ((dispatchEvent (fun p => if p = 2 then none else some (p = 1)) [1, 2, 3]
        exEvent).1.map Prod.fst).count 3 = 1 :=
  C2_dispatch_resets_consumed_each_listener.2.2.1 _ [1, 2, 3] exEvent 3
    (by decide) (by decide) (by decide)

/-- Success condition of `PushLayer`: non-null and (in a validated
build) not already present. -/
def PushLayerOk (debug : Bool) (s : LayerStack) (p : Nat) : Prop :=
  p ≠ 0 ∧ ¬(debug = true ∧ p ∈ s.layers)

/-- Success condition of `PopLayer`: non-null and found by the search
over the layer partition `[0, m_LayerInsertIndex)`. -/
def PopLayerOk (s : LayerStack) (p : Nat) : Prop :=
  p ≠ 0 ∧ p ∈ s.layers.take s.layerInsertIndex

instance (d : Bool) (s : LayerStack) (p : Nat) : Decidable (PushLayerOk d s p) := by
  unfold PushLayerOk; infer_instance

instance (s : LayerStack) (p : Nat) : Decidable (PopLayerOk s p) := by
  unfold PopLayerOk; infer_instance

theorem pushLayer_boundary_le (d : Bool) (p : Nat) {s : LayerStack}
    (ih : s.layerInsertIndex ≤ s.layers.length) :
    (pushLayer d s p).1.layerInsertIndex ≤ (pushLayer d s p).1.layers.length := by
  unfold pushLayer
  by_cases h0 : p = 0
  · simpa [h0] using ih
  · by_cases hdup : d = true ∧ p ∈ s.layers
    · simpa [h0, hdup] using ih
    · simp only [if_neg h0, if_neg hdup]
      show s.layerInsertIndex + 1 ≤ (s.layers.insertIdx s.layerInsertIndex p).length
      rw [List.length_insertIdx _ _ ih]
      omega

theorem popLayer_boundary_le (p : Nat) {s : LayerStack}
    (ih : s.layerInsertIndex ≤ s.layers.length) :
    (popLayer s p).1.layerInsertIndex ≤ (popLayer s p).1.layers.length := by
  unfold popLayer
  by_cases h0 : p = 0
  · simpa [h0] using ih
  · simp only [if_neg h0]
    cases hfind : (s.layers.take s.layerInsertIndex).findIdx? (fun q => q == p) with
    | none => simpa using ih
    | some i =>
      have hi : i < (s.layers.take s.layerInsertIndex).length :=
        (List.findIdx?_eq_some_iff_findIdx_eq.mp hfind).1
      rw [List.length_take] at hi
      have hilen : i < s.layers.length := lt_of_lt_of_le hi (min_le_right _ _)
      show s.layerInsertIndex - 1 ≤ (s.layers.eraseIdx i).length
      rw [List.length_eraseIdx_of_lt hilen]
      omega

theorem pushOverlay_boundary_le (d : Bool) (p : Nat) {s : LayerStack}
    (ih : s.layerInsertIndex ≤ s.layers.length) :
    (pushOverlay d s p).1.layerInsertIndex ≤ (pushOverlay d s p).1.layers.length := by
  unfold pushOverlay
  by_cases h0 : p = 0
  · simpa [h0] using ih
  · by_cases hdup : d = true ∧ p ∈ s.layers
    · simpa [h0, hdup] using ih
    · simp only [if_neg h0, if_neg hdup]
      show s.layerInsertIndex ≤ (s.layers ++ [p]).length
      rw [List.length_append]
      omega

theorem popOverlay_boundary_le (p : Nat) {s : LayerStack}
    (ih : s.layerInsertIndex ≤ s.layers.length) :
    (popOverlay s p).1.layerInsertIndex ≤ (popOverlay s p).1.layers.length := by
  unfold popOverlay
  by_cases h0 : p = 0
  · simpa [h0] using ih
  · simp only [if_neg h0]
    cases hfind : (s.layers.drop s.layerInsertIndex).findIdx? (fun q => q == p) with
    | none => simpa using ih
    | some i =>
      have hi : i < (s.layers.drop s.layerInsertIndex).length :=
        (List.findIdx?_eq_some_iff_findIdx_eq.mp hfind).1
      rw [List.length_drop] at hi
      have hlt : s.layerInsertIndex + i < s.layers.length := by omega
      show s.layerInsertIndex ≤ (s.layers.eraseIdx (s.layerInsertIndex + i)).length
      rw [List.length_eraseIdx_of_lt hlt]
      omega

theorem boundary_le_length_preserved :
    ∀ s, ReachableStack s → s.layerInsertIndex ≤ s.layers.length := by
  intro s h
  induction h with
  | init => exact Nat.le_refl 0
  | pushL d p _ ih => exact pushLayer_boundary_le d p ih
  | popL p _ ih => exact popLayer_boundary_le p ih
  | pushO d p _ ih => exact pushOverlay_boundary_le d p ih
  | popO p _ ih => exact popOverlay_boundary_le p ih

/-- C3: in every reachable stack state `0 ≤ boundary ≤ length` (the
lower bound is inherent to the unsigned index); a successful
`PushLayer` increments the boundary, a successful `PopLayer` decrements
it (the boundary being positive when the search succeeds), and
`PushOverlay`/`PopOverlay` leave it unchanged. -/
theorem C3_boundary_invariant :
    (∀ s, ReachableStack s → s.layerInsertIndex ≤ s.layers.length) ∧
    (∀ d s p, PushLayerOk d s p →
      (pushLayer d s p).1.layerInsertIndex = s.layerInsertIndex + 1) ∧
    (∀ s p, PopLayerOk s p →
      1 ≤ s.layerInsertIndex ∧
      (popLayer s p).1.layerInsertIndex = s.layerInsertIndex - 1) ∧
    (∀ d s p, (pushOverlay d s p).1.layerInsertIndex = s.layerInsertIndex) ∧
    (∀ s p, (popOverlay s p).1.layerInsertIndex = s.layerInsertIndex) := by
  refine ⟨boundary_le_length_preserved, ?_, ?_, ?_, ?_⟩
  · intro d s p hok
    obtain ⟨h0, hdup⟩ := hok
    simp [pushLayer, h0, hdup]
  · intro s p hok
    obtain ⟨h0, hmem⟩ := hok
    have hfind : (s.layers.take s.layerInsertIndex).findIdx? (fun q => q == p) =
        some ((s.layers.take s.layerInsertIndex).findIdx (fun q => q == p)) :=
      List.findIdx?_eq_some_of_exists ⟨p, hmem, by simp⟩
    have hb : 1 ≤ s.layerInsertIndex := by
      rcases Nat.eq_zero_or_pos s.layerInsertIndex with hz | hpos
      · rw [hz] at hmem; simp at hmem
      · exact hpos
    refine ⟨hb, ?_⟩
    simp [popLayer, h0, hfind]
  · intro d s p
    unfold pushOverlay
    by_cases h0 : p = 0
    · simp [h0]
    · by_cases hdup : d = true ∧ p ∈ s.layers
      · simp [h0, hdup]
      · simp [h0, hdup]
  · intro s p
    unfold popOverlay
    by_cases h0 : p = 0
    · simp [h0]
    · simp only [if_neg h0]
      cases hfind : (s.layers.drop s.layerInsertIndex).findIdx? (fun q => q == p) <;>
        simp

/-- Witness for C3 at a concrete reachable state: the example stack
`[L1, L2, O]` with boundary 2. -/
theorem C3_witness :
    exStack.layerInsertIndex ≤ exStack.layers.length ∧
      (pushLayer true exStack 4).1.layerInsertIndex = 3 ∧
      (popLayer exStack 2).1.layerInsertIndex = 1 := by
  have hreach : ReachableStack exStack :=
    .pushO false 3 (.pushL false 2 (.pushL false 1 .init))
  refine ⟨C3_boundary_invariant.1 exStack hreach, ?_, ?_⟩
  · exact C3_boundary_invariant.2.1 true exStack 4 (by decide)
  · exact (C3_boundary_invariant.2.2.1 exStack 2 (by decide)).2


/-- C4: `PushLayer` on null warns and is a no-op; in a validated build a
reference already anywhere in the stack warns and is a no-op; otherwise
the reference is inserted at the boundary, the boundary incremented,
and `OnAttach` called.  `PopLayer` searches only `[0, boundary)`: when
found it calls `OnDetach`, erases the found position and decrements the
boundary; otherwise (even when the reference sits in the overlay
partition) it warns and is a no-op. -/
theorem C4_pushLayer_popLayer_behavior :
    (∀ d s, pushLayer d s 0 = (s, [.warn])) ∧
    (∀ s p, p ∈ s.layers → pushLayer true s p = (s, [.warn])) ∧
    (∀ d s p, PushLayerOk d s p →
      pushLayer d s p =
        (⟨s.layers.insertIdx s.layerInsertIndex p, s.layerInsertIndex + 1⟩,
         [.attach p])) ∧
    (∀ s, popLayer s 0 = (s, [.warn])) ∧
    (∀ s p, p ∉ s.layers.take s.layerInsertIndex → popLayer s p = (s, [.warn])) ∧
    (∀ s p, PopLayerOk s p → ∃ i,
      (s.layers.take s.layerInsertIndex).findIdx? (fun q => q == p) = some i ∧
      popLayer s p =
        (⟨s.layers.eraseIdx i, s.layerInsertIndex - 1⟩, [.detach p])) := by
  refine ⟨?_, ?_, ?_, ?_, ?_, ?_⟩
  · intro d s
    simp [pushLayer]
  · intro s p hmem
    by_cases h0 : p = 0
    · simp [pushLayer, h0]
    · simp [pushLayer, h0, hmem]
  · intro d s p hok
    obtain ⟨h0, hdup⟩ := hok
    simp [pushLayer, h0, hdup]
  · intro s
    simp [popLayer]
  · intro s p hmem
    by_cases h0 : p = 0
    · simp [popLayer, h0]
    · have hfind : (s.layers.take s.layerInsertIndex).findIdx? (fun q => q == p) =
          none := by
        rw [List.findIdx?_eq_none_iff]
        intro x hx
        by_cases hxp : x = p
        · exact absurd (hxp ▸ hx) hmem
        · simp [hxp]
      simp [popLayer, h0, hfind]
  · intro s p hok
    obtain ⟨h0, hmem⟩ := hok
    have hfind : (s.layers.take s.layerInsertIndex).findIdx? (fun q => q == p) =
        some ((s.layers.take s.layerInsertIndex).findIdx (fun q => q == p)) :=
      List.findIdx?_eq_some_of_exists ⟨p, hmem, by simp⟩
    exact ⟨_, hfind, by simp [popLayer, h0, hfind]⟩

/-- Witness for C4: pushing a fresh layer onto the example stack grows
the layer partition, and popping `L2` erases it and decrements the
boundary. -/
theorem C4_witness :
    pushLayer false exStack 9 =
      (⟨[1, 2, 9, 3], 3⟩, [.attach 9]) ∧
    popLayer exStack 2 = (⟨[1, 3], 1⟩, [.detach 2]) := by
  constructor
  · have h := C4_pushLayer_popLayer_behavior.2.2.1 false exStack 9 (by decide)
    rw [h]
    decide
  · obtain ⟨i, hfind, heq⟩ :=
      C4_pushLayer_popLayer_behavior.2.2.2.2.2 exStack 2 (by decide)
    have hi : i = 1 := by
      have : (exStack.layers.take exStack.layerInsertIndex).findIdx?
          (fun q => q == 2) = some 1 := by decide
      rw [this] at hfind
      exact (Option.some.injEq _ _ ▸ hfind.symm)
    rw [heq, hi]
    decide

theorem nat_or_and_absorb (a b : Nat) : (a ||| b) &&& a = a := by
  apply Nat.eq_of_testBit_eq
  intro i
  simp only [Nat.testBit_and, Nat.testBit_or]
  cases a.testBit i <;> simp

theorem nat_or_and_disjoint {a b c : Nat} (ha : a &&& c = 0) (hb : b &&& c = 0) :
    (a ||| b) &&& c = 0 := by
  apply Nat.eq_of_testBit_eq
  intro i
  have ha' : (a &&& c).testBit i = Nat.testBit 0 i := by rw [ha]
  have hb' : (b &&& c).testBit i = Nat.testBit 0 i := by rw [hb]
  simp only [Nat.testBit_and, Nat.zero_testBit] at ha' hb'
  simp only [Nat.testBit_and, Nat.testBit_or, Nat.zero_testBit]
  cases hc : c.testBit i
  · simp
  · rw [hc] at ha' hb'
    simp only [Bool.and_true] at ha' hb'
    simp [ha', hb']

theorem nat_or_lt_256 {a b : Nat} (ha : a < 256) (hb : b < 256) : a ||| b < 256 := by
  have h8 : (256 : Nat) = 2 ^ 8 := by norm_num
  rw [h8] at ha hb ⊢
  exact Nat.or_lt_two_pow ha hb

/-- C9: every mask built from the category flag bits fits the `uint8_t`
field (the constants do and the operators preserve it), and on such
masks `(A|B)&A = A`; `(A|B)&C = NONE` whenever `C` is disjoint from
both `A` and `B`; and `~~A = A`. -/
theorem C9_category_mask_algebra :
    (∀ c, (EventCategoryWrapper.ofCategory c).Wf) ∧
    (∀ A B : EventCategoryWrapper, (A.or B).Wf ∧ (A.and B).Wf ∧ A.compl.Wf) ∧
    ∀ A B C : EventCategoryWrapper, A.Wf → B.Wf → C.Wf →
      ((A.or B).and A = A) ∧
      (A.and C = EventCategoryWrapper.ofCategory .NONE →
        B.and C = EventCategoryWrapper.ofCategory .NONE →
        (A.or B).and C = EventCategoryWrapper.ofCategory .NONE) ∧
      A.compl.compl = A := by
  refine ⟨by intro c; cases c <;> decide, ?_, ?_⟩
  · rintro ⟨a⟩ ⟨b⟩
    refine ⟨Nat.mod_lt _ (by norm_num), Nat.mod_lt _ (by norm_num), ?_⟩
    show 255 - a % 256 < 256
    omega
  rintro ⟨a⟩ ⟨b⟩ ⟨c⟩ ha hb hc
  have ha' : a < 256 := ha
  have hb' : b < 256 := hb
  have hc' : c < 256 := hc
  have hab : a ||| b < 256 := nat_or_lt_256 ha' hb'
  refine ⟨?_, ?_, ?_⟩
  · simp only [EventCategoryWrapper.or, EventCategoryWrapper.and,
      Nat.mod_eq_of_lt hab]
    rw [nat_or_and_absorb]
    simp [Nat.mod_eq_of_lt ha']
  · intro hAC hBC
    simp only [EventCategoryWrapper.and, EventCategoryWrapper.or,
      EventCategoryWrapper.ofCategory, EventCategory.val,
      EventCategoryWrapper.mk.injEq] at hAC hBC ⊢
    have hac : a &&& c = 0 := by
      have hle : a &&& c < 256 := lt_of_le_of_lt Nat.and_le_left ha'
      rwa [Nat.mod_eq_of_lt hle] at hAC
    have hbc : b &&& c = 0 := by
      have hle : b &&& c < 256 := lt_of_le_of_lt Nat.and_le_left hb'
      rwa [Nat.mod_eq_of_lt hle] at hBC
    rw [Nat.mod_eq_of_lt hab, nat_or_and_disjoint hac hbc]
  · simp only [EventCategoryWrapper.compl, EventCategoryWrapper.mk.injEq,
      Nat.mod_eq_of_lt ha']
    have h1 : 255 - a < 256 := by omega
    rw [Nat.mod_eq_of_lt h1]
    omega

/-- Witness for C9 with `A = INPUT|KEYBOARD`, `B = MOUSE`, `C = WINDOW`
(disjoint from both). -/
theorem C9_witness :
    ((EventCategory.INPUT.val ||| EventCategory.KEYBOARD.val : Nat) = 3) ∧
    (((⟨3⟩ : EventCategoryWrapper).or ⟨4⟩).and ⟨3⟩ = ⟨3⟩) ∧
    (((⟨3⟩ : EventCategoryWrapper).or ⟨4⟩).and ⟨16⟩ =
      EventCategoryWrapper.ofCategory .NONE) ∧
    ((⟨3⟩ : EventCategoryWrapper).compl.compl = ⟨3⟩) := by
  have h := C9_category_mask_algebra.2.2 ⟨3⟩ ⟨4⟩ ⟨16⟩ (by decide) (by decide) (by decide)
  exact ⟨by decide, h.1, h.2.1 (by decide) (by decide), h.2.2⟩

/-- C6 counterexample: in a release build (`AE_DEBUG` off) the null
check in `AddListener` is compiled out, so `AddListener(nullptr)` on an
empty registry inserts the null handle — the registry changes and no
warning fires; `RemoveListener(nullptr)` then finds and erases it
without a warning.  The claim's unconditional "null add is a diagnostic
no-op" and "null remove leaves the registry unchanged" are therefore
false as stated. -/
theorem C6_counterexample :
    (addListener false [] 0).1 = [0] ∧ (addListener false [] 0).1 ≠ [] ∧
      (addListener false [] 0).2 = false ∧
      (removeListener false [0] 0).1 = [] ∧
      (removeListener false [0] 0).2 = false := by
  decide

/-- C6 (amended): in validated builds `AddListener` on a null handle is
a diagnostic no-op; in release builds the null check is compiled out
and the null handle is inserted like any other value.  An
already-registered handle never produces a duplicate entry (the set
insert is a no-op), and in validated builds the duplicate add is
rejected with a warning.  `RemoveListener` on a not-registered handle
warns and leaves the registry unchanged, never failing fatally; a null
handle is rejected up front only in validated builds (in release it is
looked up like any other value). -/
theorem C6_registry_error_handling :
    (∀ reg, addListener true reg 0 = (reg, true)) ∧
    (∀ reg p, addListener false reg p = (insertSet reg p, false)) ∧
    (∀ d reg p, reg.Nodup → ((addListener d reg p).1.Nodup ∧
      ∀ q, (addListener d reg p).1.count q ≤ 1)) ∧
    (∀ reg p, p ∈ reg → addListener true reg p = (reg, true)) ∧
    (∀ d reg p, p ∉ reg → removeListener d reg p = (reg, true)) ∧
    (∀ reg, removeListener true reg 0 = (reg, true)) ∧
    (∀ reg p, p ∈ reg → removeListener false reg p = (reg.erase p, false)) ∧
    (∀ d reg p, reg.Nodup → (removeListener d reg p).1.Nodup) := by
  have hinsert : ∀ (reg : List Nat) p, reg.Nodup → (insertSet reg p).Nodup := by
    intro reg p hnd
    unfold insertSet
    by_cases hmem : p ∈ reg
    · simpa [hmem] using hnd
    · simp only [if_neg hmem]
      refine List.Nodup.append hnd (List.nodup_singleton p) ?_
      intro q hq hqp
      rw [List.mem_singleton] at hqp
      exact hmem (hqp ▸ hq)
  refine ⟨?_, ?_, ?_, ?_, ?_, ?_, ?_, ?_⟩
  · intro reg
    simp [addListener]
  · intro reg p
    simp [addListener]
  · intro d reg p hnd
    have hres : (addListener d reg p).1.Nodup := by
      unfold addListener
      by_cases h1 : d = true ∧ p = 0
      · simpa [h1] using hnd
      · by_cases h2 : d = true ∧ p ∈ reg
        · simp only [if_neg h1, if_pos h2]
          exact hnd
        · simp only [if_neg h1, if_neg h2]
          exact hinsert reg p hnd
    exact ⟨hres, fun q => List.nodup_iff_count_le_one.mp hres q⟩
  · intro reg p hmem
    by_cases h0 : p = 0
    · simp [addListener, h0]
    · simp [addListener, h0, hmem]
  · intro d reg p hmem
    unfold removeListener
    by_cases h1 : d = true ∧ p = 0
    · simp [h1]
    · simp [h1, hmem]
  · intro reg
    simp [removeListener]
  · intro reg p hmem
    simp [removeListener, hmem]
  · intro d reg p hnd
    unfold removeListener
    by_cases h1 : d = true ∧ p = 0
    · simpa [h1] using hnd
    · by_cases hmem : p ∈ reg
      · simp only [if_neg h1, if_pos hmem]
        exact hnd.erase p
      · simpa [h1, hmem] using hnd

/-- Witness for C6 (amended) on a concrete two-handle registry. -/
theorem C6_witness :
    (addListener true [5, 7] 5 = ([5, 7], true)) ∧
      (removeListener true [5, 7] 9 = ([5, 7], true)) ∧
      (removeListener false [5, 7] 5 = ([7], false)) ∧
      (addListener false [5, 7] 5).1.Nodup := by
  refine ⟨C6_registry_error_handling.2.2.2.1 [5, 7] 5 (by decide),
    C6_registry_error_handling.2.2.2.2.1 true [5, 7] 9 (by decide),
    ?_, (C6_registry_error_handling.2.2.1 false [5, 7] 5 (by decide)).1⟩
  have h := C6_registry_error_handling.2.2.2.2.2.2.1 [5, 7] 5 (by decide)
  rw [h]
  decide

/-- Callback map of the C7 witness scenario. -/
def cbEx : Nat → Option Nat := fun x => if x = 5 then some 11 else none

/-- C7: move-construction unregisters the source, registers the (fresh,
non-null) target, installs the source's callback in the target and
clears the source's callback; move-assignment (between distinct
objects) unregisters the source, leaves the target's registration state
untouched, moves the callback and clears the source; destruction always
goes through `RemoveListener`, so a registered handle is unregistered
by its destructor.  (Non-copyability is a type-level fact: the copy
operations are `= delete` in the header.) -/
theorem C7_listener_move_semantics :
    ∀ (d : Bool) (st : ListenerSystem) (tgt src : Nat),
      tgt ≠ src → tgt ≠ 0 → src ≠ 0 →
      ((tgt ∈ (moveConstructListener d st tgt src).registered ∧
        (st.registered.Nodup →
          src ∉ (moveConstructListener d st tgt src).registered) ∧
        (∀ q, q ≠ tgt → q ≠ src →
          (q ∈ (moveConstructListener d st tgt src).registered ↔
           q ∈ st.registered))) ∧
       ((moveConstructListener d st tgt src).callback tgt = st.callback src ∧
        (moveConstructListener d st tgt src).callback src = none ∧
        (∀ q, q ≠ tgt → q ≠ src →
          (moveConstructListener d st tgt src).callback q = st.callback q)) ∧
       (st.registered.Nodup →
         src ∉ (moveAssignListener d st tgt src).registered) ∧
       ((tgt ∈ (moveAssignListener d st tgt src).registered ↔
          tgt ∈ st.registered) ∧
        (moveAssignListener d st tgt src).callback tgt = st.callback src ∧
        (moveAssignListener d st tgt src).callback src = none ∧
        (∀ q, q ≠ tgt → q ≠ src →
          (moveAssignListener d st tgt src).callback q = st.callback q)) ∧
       (st.registered.Nodup →
         src ∉ (destroyListener d st src).registered)) := by
  intro d st tgt src hts ht0 hs0
  have hrem_eq : ∀ (reg : List Nat), (removeListener d reg src).1 =
      if src ∈ reg then reg.erase src else reg := by
    intro reg
    unfold removeListener
    have h1 : ¬(d = true ∧ src = 0) := fun h => hs0 h.2
    by_cases hmem : src ∈ reg
    · simp [h1, hmem]
    · simp [h1, hmem]
  have hrem_not : ∀ (reg : List Nat), reg.Nodup →
      src ∉ (removeListener d reg src).1 := by
    intro reg hnd
    rw [hrem_eq]
    by_cases hmem : src ∈ reg
    · simp only [if_pos hmem]
      intro hc
      exact ((hnd.mem_erase_iff).mp hc).1 rfl
    · simp only [if_neg hmem]
      exact hmem
  have hrem_mem : ∀ (reg : List Nat) q, q ≠ src →
      (q ∈ (removeListener d reg src).1 ↔ q ∈ reg) := by
    intro reg q hq
    rw [hrem_eq]
    by_cases hmem : src ∈ reg
    · simp only [if_pos hmem]
      exact List.mem_erase_of_ne hq
    · simp [hmem]
  have hadd_mem : ∀ (reg : List Nat) q,
      (q ∈ (addListener d reg tgt).1 ↔ (q ∈ reg ∨ q = tgt)) := by
    intro reg q
    unfold addListener
    have h1 : ¬(d = true ∧ tgt = 0) := fun h => ht0 h.2
    by_cases h2 : d = true ∧ tgt ∈ reg
    · simp only [if_neg h1, if_pos h2]
      constructor
      · exact Or.inl
      · rintro (hq | rfl)
        · exact hq
        · exact h2.2
    · simp only [if_neg h1, if_neg h2]
      unfold insertSet
      by_cases hmem : tgt ∈ reg
      · simp only [if_pos hmem]
        constructor
        · exact Or.inl
        · rintro (hq | rfl)
          · exact hq
          · exact hmem
      · simp only [if_neg hmem, List.mem_append, List.mem_singleton]
  refine ⟨⟨?_, ?_, ?_⟩, ⟨?_, ?_, ?_⟩, ?_, ⟨?_, ?_, ?_, ?_⟩, ?_⟩
  · show tgt ∈ (addListener d (removeListener d st.registered src).1 tgt).1
    exact (hadd_mem _ tgt).mpr (Or.inr rfl)
  · intro hnd
    show src ∉ (addListener d (removeListener d st.registered src).1 tgt).1
    intro hc
    rcases (hadd_mem _ src).mp hc with hin | heq
    · exact hrem_not st.registered hnd hin
    · exact hts heq.symm
  · intro q hqt hqs
    show q ∈ (addListener d (removeListener d st.registered src).1 tgt).1 ↔
      q ∈ st.registered
    rw [hadd_mem]
    constructor
    · rintro (hq | rfl)
      · exact (hrem_mem st.registered q hqs).mp hq
      · exact absurd rfl hqt
    · intro hq
      exact Or.inl ((hrem_mem st.registered q hqs).mpr hq)
  · show (if tgt = src then none
      else if tgt = tgt then st.callback src else st.callback tgt) = st.callback src
    simp [hts]
  · show (if src = src then none
      else if src = tgt then st.callback src else st.callback src) = none
    simp
  · intro q hqt hqs
    show (if q = src then none
      else if q = tgt then st.callback src else st.callback q) = st.callback q
    simp [hqt, hqs]
  · intro hnd
    unfold moveAssignListener
    rw [if_neg hts]
    exact hrem_not st.registered hnd
  · unfold moveAssignListener
    rw [if_neg hts]
    exact hrem_mem st.registered tgt hts
  · unfold moveAssignListener
    rw [if_neg hts]
    show (if tgt = src then none
      else if tgt = tgt then st.callback src else st.callback tgt) = st.callback src
    simp [hts]
  · unfold moveAssignListener
    rw [if_neg hts]
    show (if src = src then none
      else if src = tgt then st.callback src else st.callback src) = none
    simp
  · intro q hqt hqs
    unfold moveAssignListener
    rw [if_neg hts]
    show (if q = src then none
      else if q = tgt then st.callback src else st.callback q) = st.callback q
    simp [hqt, hqs]
  · intro hnd
    exact hrem_not st.registered hnd

/-- Witness for C7: moving from the registered handle `5` (callback
`some 11`) into the fresh handle `9`, in a validated build with
registry `[5, 7]`. -/
theorem C7_witness :
    9 ∈ (moveConstructListener true ⟨[5, 7], cbEx⟩ 9 5).registered ∧
      5 ∉ (moveConstructListener true ⟨[5, 7], cbEx⟩ 9 5).registered ∧
      (moveConstructListener true ⟨[5, 7], cbEx⟩ 9 5).callback 9 = some 11 ∧
      (moveConstructListener true ⟨[5, 7], cbEx⟩ 9 5).callback 5 = none ∧
      5 ∉ (destroyListener true ⟨[5, 7], cbEx⟩ 5).registered := by
  have h := C7_listener_move_semantics true ⟨[5, 7], cbEx⟩ 9 5
    (by decide) (by decide) (by decide)
  refine ⟨h.1.1, h.1.2.1 (by decide), ?_, h.2.1.2.1, h.2.2.2.2 (by decide)⟩
  rw [h.2.1.1]
  decide


theorem lookup_eq_none_iff (k : Nat) :
    ∀ (memo : List (Nat × Nat)),
      memo.lookup k = none ↔ k ∉ memo.map Prod.fst := by
  intro memo
  induction memo with
  | nil => simp
  | cons pr rest ih =>
    obtain ⟨a, b⟩ := pr
    rw [List.lookup_cons]
    by_cases hk : k = a
    · subst hk
      simp
    · have hbeq : (k == a) = false := by simp [hk]
      rw [hbeq]
      simp [hk, ih]

theorem pairwise_lt_range' : ∀ (n s : Nat), List.Pairwise (· < ·) (List.range' s n)
  | 0, _ => by simp
  | n + 1, s => by
    rw [List.range'_succ]
    refine List.Pairwise.cons ?_ (pairwise_lt_range' n (s + 1))
    intro m hm
    rw [List.mem_range'] at hm
    omega

/-- Invariant of the custom-id allocator along any run that stays below
the `uint32_t` wrap: memoized ids are exactly
`CUSTOM_START, CUSTOM_START+1, …` in first-use order (stored most
recent first), kinds are memoized at most once, and `s_NextId` equals
`CUSTOM_START` plus the number of allocations. -/
theorem runAlloc_inv (ks : List Nat) :
    ∀ st : IdAllocState,
      st.memo.map Prod.snd = (List.range' customStart st.memo.length).reverse →
      (st.memo.map Prod.fst).Nodup →
      st.nextId = customStart + st.memo.length →
      customStart + st.memo.length + ks.length < 4294967296 →
      ((runAlloc st ks).memo.map Prod.snd =
        (List.range' customStart (runAlloc st ks).memo.length).reverse ∧
       ((runAlloc st ks).memo.map Prod.fst).Nodup ∧
       (runAlloc st ks).nextId = customStart + (runAlloc st ks).memo.length ∧
       (runAlloc st ks).memo.length ≤ st.memo.length + ks.length) := by
  induction ks with
  | nil =>
    intro st h1 h2 h3 _
    exact ⟨h1, h2, h3, Nat.le_refl _⟩
  | cons k ks ih =>
    intro st h1 h2 h3 hbound
    cases hlk : st.memo.lookup k with
    | some i =>
      have hstep : runAlloc st (k :: ks) = runAlloc st ks := by
        simp [runAlloc, obtainKindId, hlk]
      rw [hstep]
      have := ih st h1 h2 h3 (by simp at hbound; omega)
      exact ⟨this.1, this.2.1, this.2.2.1, le_trans this.2.2.2 (by simp)⟩
    | none =>
      have hnowrap : st.nextId + 1 < 4294967296 := by
        rw [h3]
        simp only [List.length_cons] at hbound
        omega
      have hstep : runAlloc st (k :: ks) =
          runAlloc ⟨st.nextId + 1, (k, st.nextId) :: st.memo⟩ ks := by
        simp [runAlloc, obtainKindId, hlk, Nat.mod_eq_of_lt hnowrap]
      rw [hstep]
      have hlen : ((k, st.nextId) :: st.memo).length = st.memo.length + 1 := by
        simp
      have h1' : ((k, st.nextId) :: st.memo).map Prod.snd =
          (List.range' customStart ((k, st.nextId) :: st.memo).length).reverse := by
        rw [hlen, List.range'_concat, List.reverse_append]
        simp only [List.map_cons, List.reverse_singleton, List.singleton_append,
          List.cons.injEq]
        exact ⟨by rw [h3]; ring, h1⟩
      have h2' : (((k, st.nextId) :: st.memo).map Prod.fst).Nodup := by
        simp only [List.map_cons]
        exact List.Pairwise.cons
          (fun q hq hkq => ((lookup_eq_none_iff k st.memo).mp hlk) (hkq ▸ hq))
          h2
      have h3' : (⟨st.nextId + 1, (k, st.nextId) :: st.memo⟩ : IdAllocState).nextId =
          customStart + ((k, st.nextId) :: st.memo).length := by
        show st.nextId + 1 = customStart + ((k, st.nextId) :: st.memo).length
        rw [List.length_cons, h3]
        omega
      have hbound' : customStart + ((k, st.nextId) :: st.memo).length + ks.length <
          4294967296 := by
        rw [hlen]
        simp only [List.length_cons] at hbound
        omega
      have := ih ⟨st.nextId + 1, (k, st.nextId) :: st.memo⟩ h1' h2' h3' hbound'
      refine ⟨this.1, this.2.1, this.2.2.1, ?_⟩
      calc (runAlloc ⟨st.nextId + 1, (k, st.nextId) :: st.memo⟩ ks).memo.length
          ≤ ((k, st.nextId) :: st.memo).length + ks.length := this.2.2.2
        _ = st.memo.length + (k :: ks).length := by simp; ring

theorem runAlloc_initial (ks : List Nat) (h : ks.length < 4294966296) :
    ((runAlloc initialIdAllocState ks).memo.map Prod.snd =
      (List.range' customStart
        (runAlloc initialIdAllocState ks).memo.length).reverse) ∧
    ((runAlloc initialIdAllocState ks).memo.map Prod.fst).Nodup ∧
    (runAlloc initialIdAllocState ks).nextId =
      customStart + (runAlloc initialIdAllocState ks).memo.length ∧
    (runAlloc initialIdAllocState ks).memo.length ≤ ks.length := by
  have h0 : customStart + (initialIdAllocState.memo.length) + ks.length <
      4294967296 := by
    simp only [initialIdAllocState, List.length_nil, Nat.add_zero, customStart]
    omega
  have := runAlloc_inv ks initialIdAllocState (by simp [initialIdAllocState])
    (by simp [initialIdAllocState]) (by simp [initialIdAllocState]) h0
  exact ⟨this.1, this.2.1, this.2.2.1, by simpa [initialIdAllocState] using this.2.2.2⟩

/-- Keys memoized by a run over pairwise-distinct fresh kinds: one entry
per kind, most recent first. -/
theorem runAlloc_keys (ks : List Nat) :
    ∀ st : IdAllocState, ks.Nodup → (∀ k ∈ ks, st.memo.lookup k = none) →
      (runAlloc st ks).memo.map Prod.fst = ks.reverse ++ st.memo.map Prod.fst := by
  induction ks with
  | nil =>
    intro st _ _
    simp [runAlloc]
  | cons k ks ih =>
    intro st hnd hfresh
    have hlk : st.memo.lookup k = none := hfresh k (by simp)
    have hnowrap := Nat.mod_le (st.nextId + 1) 4294967296
    have hstep : runAlloc st (k :: ks) =
        runAlloc ⟨(st.nextId + 1) % 4294967296, (k, st.nextId) :: st.memo⟩ ks := by
      simp [runAlloc, obtainKindId, hlk]
    rw [hstep]
    have hfresh' : ∀ k' ∈ ks,
        ((k, st.nextId) :: st.memo).lookup k' = none := by
      intro k' hk'
      have hne : k' ≠ k := by
        intro hc
        exact (List.nodup_cons.mp hnd).1 (hc ▸ hk')
      rw [List.lookup_cons]
      have hbeq : (k' == k) = false := by simp [hne]
      rw [hbeq]
      exact hfresh k' (by simp [hk'])
    rw [ih _ (List.nodup_cons.mp hnd).2 hfresh']
    simp

/-- C5: along any allocation run (fewer than `2^32 - 1000` requests, so
the `uint32_t` counter cannot wrap), every custom kind id is at least
`CUSTOM_START = 1000`; in first-use order the assigned ids are exactly
`1000, 1001, 1002, …` — strictly increasing and never reused; a kind
already memoized gets its memoized id back with no state change; no two
distinct custom kinds share an id; and the built-in ids are pairwise
distinct literals below 1000, so no built-in shares an id with any
custom kind. -/
theorem C5_custom_kind_id_allocation :
    (∀ ks, ks.length < 4294966296 →
      (∀ pr ∈ (runAlloc initialIdAllocState ks).memo, customStart ≤ pr.2) ∧
      ((runAlloc initialIdAllocState ks).memo.reverse.map Prod.snd =
        List.range' customStart (runAlloc initialIdAllocState ks).memo.length) ∧
      List.Pairwise (· < ·)
        ((runAlloc initialIdAllocState ks).memo.reverse.map Prod.snd) ∧
      ((runAlloc initialIdAllocState ks).memo.map Prod.snd).Nodup ∧
      (∀ k i, (runAlloc initialIdAllocState ks).memo.lookup k = some i →
        obtainKindId (runAlloc initialIdAllocState ks) k =
          (i, runAlloc initialIdAllocState ks))) ∧
    builtinEventIds.Nodup ∧ (∀ b ∈ builtinEventIds, b < customStart) := by
  refine ⟨?_, by decide, by decide⟩
  intro ks hks
  obtain ⟨hsnd, -, -, -⟩ := runAlloc_initial ks hks
  have hrev : (runAlloc initialIdAllocState ks).memo.reverse.map Prod.snd =
      List.range' customStart (runAlloc initialIdAllocState ks).memo.length := by
    rw [List.map_reverse, hsnd, List.reverse_reverse]
  refine ⟨?_, hrev, ?_, ?_, ?_⟩
  · intro pr hpr
    have hmem : pr.2 ∈ (runAlloc initialIdAllocState ks).memo.map Prod.snd :=
      List.mem_map.mpr ⟨pr, hpr, rfl⟩
    rw [hsnd, List.mem_reverse, List.mem_range'] at hmem
    obtain ⟨i, -, hi⟩ := hmem
    omega
  · rw [hrev]
    exact pairwise_lt_range' _ _
  · rw [hsnd]
    rw [List.nodup_reverse]
    exact ((pairwise_lt_range' _ _).imp Nat.ne_of_lt)
  · intro k i hlk
    simp [obtainKindId, hlk]

/-- Witness for C5 on the run `[5, 7, 5]`: kind 5 gets id 1000, kind 7
gets 1001, and the repeated request for kind 5 returns 1000 with no
state change. -/
theorem C5_witness :
    ((runAlloc initialIdAllocState [5, 7, 5]).memo.reverse.map Prod.snd =
      [1000, 1001]) ∧
    obtainKindId (runAlloc initialIdAllocState [5, 7, 5]) 5 =
      (1000, runAlloc initialIdAllocState [5, 7, 5]) := by
  have h := (C5_custom_kind_id_allocation.1 [5, 7, 5] (by norm_num))
  constructor
  · rw [h.2.1]
    decide
  · exact h.2.2.2.2 5 1000 (by decide)

/-- C10: the envelope narrows the `uint32_t` kind id to its `uint16_t`
field, so `GetTypeId()` returns the id modulo `2^16`; once at least
64536 custom kinds are memoized (counter at `≥ 65536`), the id
allocated for a new custom kind truncates into the reserved built-in
range `[0, 1000)` or onto the id of an earlier custom kind — at the
exact crossing (64536 kinds memoized) the new kind's events report type
id 0, the `EventType::NONE` value. -/
theorem C10_typeId_truncation :
    (∀ k cats, (mkEvent k cats).getTypeId = k % 65536) ∧
    (∀ ks k c t, ks.length < 4294966296 →
      64536 ≤ (runAlloc initialIdAllocState ks).memo.length →
      (runAlloc initialIdAllocState ks).memo.lookup k = none →
      c = (obtainKindId (runAlloc initialIdAllocState ks) k).1 →
      t = (mkEvent c (.ofCategory .CUSTOM)).getTypeId →
      65536 ≤ c ∧ t = c % 65536 ∧
      (t < customStart ∨
        (customStart ≤ t ∧ t < c ∧
         t ∈ (runAlloc initialIdAllocState ks).memo.map Prod.snd ∧
         (mkEvent t (.ofCategory .CUSTOM)).getTypeId = t)) ∧
      ((runAlloc initialIdAllocState ks).memo.length = 64536 → t = 0)) := by
  constructor
  · intro k cats
    rfl
  · intro ks k c t hks hlen hlk hc ht
    obtain ⟨hsnd, -, hnext, -⟩ := runAlloc_initial ks hks
    have hcval : c = customStart +
        (runAlloc initialIdAllocState ks).memo.length := by
      rw [hc]
      simp [obtainKindId, hlk, hnext]
    have hc65536 : 65536 ≤ c := by
      rw [hcval]
      simp only [customStart]
      omega
    have htval : t = c % 65536 := ht
    have htlt : t < 65536 := by
      rw [htval]
      exact Nat.mod_lt _ (by norm_num)
    refine ⟨hc65536, htval, ?_, ?_⟩
    · by_cases hsmall : t < customStart
      · exact Or.inl hsmall
      · push_neg at hsmall
        refine Or.inr ⟨hsmall, lt_of_lt_of_le htlt hc65536, ?_, ?_⟩
        · rw [hsnd, List.mem_reverse, List.mem_range']
          refine ⟨t - customStart, ?_, ?_⟩
          · simp only [customStart] at hsmall ⊢
            omega
          · simp only [customStart] at hsmall ⊢
            omega
        · show t % 65536 = t
          exact Nat.mod_eq_of_lt htlt
    · intro h64536
      rw [htval, hcval, h64536]
      simp [customStart]

/-- Witness for C10 at the exact threshold: after 64536 distinct custom
kinds, the next custom kind's id is 65536 and its events report type
id 0. -/
theorem C10_witness :
    65536 ≤ (obtainKindId (runAlloc initialIdAllocState (List.range 64536)) 70000).1 ∧
      (mkEvent (obtainKindId (runAlloc initialIdAllocState (List.range 64536)) 70000).1
        (.ofCategory .CUSTOM)).getTypeId = 0 := by
  have hkeys : (runAlloc initialIdAllocState (List.range 64536)).memo.map Prod.fst =
      (List.range 64536).reverse ++ [] := by
    refine runAlloc_keys (List.range 64536) initialIdAllocState (List.nodup_range _) ?_
    intro k _
    simp [initialIdAllocState]
  have hlen : (runAlloc initialIdAllocState (List.range 64536)).memo.length = 64536 := by
    have := congrArg List.length hkeys
    simpa using this
  have hlk : (runAlloc initialIdAllocState (List.range 64536)).memo.lookup 70000 =
      none := by
    rw [lookup_eq_none_iff, hkeys]
    simp only [List.append_nil, List.mem_reverse, List.mem_range]
    omega
  have h := C10_typeId_truncation.2 (List.range 64536) 70000 _ _
    (by simp) (by rw [hlen]) hlk rfl rfl
  exact ⟨h.1, h.2.2.2 hlen⟩

end EventLib
